import Mathlib

/-!
Verification development for the competitor-intelligence agent team
(source: Competor_Intellengce/competitor_agent_team.py).

The embedding models the analysis pipeline (AnalysisAgent), the
discovery/enrichment loop (CompetitorIntelligenceTeam.discover_competitors),
the comparison table (ComparisonAgent.create_comparison_table) and the report
assembler (CompetitorIntelligenceTeam.generate_intelligence_report).

External collaborators (the Firecrawl crawler, the Exa search agent and the
LLM backends) are passed in as function parameters; calls that can raise a
Python exception are modelled with `Except Unit`.  Python JSON values are
modelled by the inductive type `JValue`; Python dicts are association lists
that preserve insertion order, matching dict semantics.  The standard-library
function json.loads is a parameter `jsonLoads : String -> Option JValue` in
the theorems; the executable parser `jparse` below implements the JSON
fragment the concrete witnesses use and instantiates that parameter.
-/

set_option linter.unusedVariables false

namespace CompetitorTeam

/-- Model of a Python JSON value (the result of json.loads). -/
inductive JValue where
  | null : JValue
  | bool : Bool → JValue
  | num : Int → JValue
  | str : String → JValue
  | arr : List JValue → JValue
  | obj : List (String × JValue) → JValue
  deriving Repr

/-- Python truthiness of a JSON value (`if analysis_data:` in the source). -/
def JValue.truthy : JValue → Bool
  | .null => false
  | .bool b => b
  | .num n => !(n = 0)
  | .str s => !(s = "")
  | .arr xs => !xs.isEmpty
  | .obj fs => !fs.isEmpty

/-- The opening-brace character, kept symbolic. -/
def lbrace : Char := Char.ofNat 123

/-- The closing-brace character, kept symbolic. -/
def rbrace : Char := Char.ofNat 125

/-- The double-quote character. -/
def quoteChar : Char := Char.ofNat 34

/-- The backslash character. -/
def backslashChar : Char := Char.ofNat 92

/-- Does the first list occur at the head of the second one? -/
def chStarts : List Char → List Char → Bool
  | [], _ => true
  | _ :: _, [] => false
  | a :: as, b :: bs => a = b && chStarts as bs

/-- Does the first list occur inside the second one (Python `sub in s`)? -/
def chContains (sub : List Char) : List Char → Bool
  | [] => sub.isEmpty
  | b :: bs => chStarts sub (b :: bs) || chContains sub bs

/-- First key lookup in an association list (Python dict access). -/
def objLookup (fs : List (String × JValue)) (k : String) : Option JValue :=
  match fs with
  | [] => none
  | (k2, v) :: rest => if k2 = k then some v else objLookup rest k

/-- Key membership in an association list (Python `key in dict`). -/
def objHasKey (fs : List (String × JValue)) (k : String) : Bool :=
  fs.any fun p => p.1 = k

/-- Python dict.setdefault: keep an existing binding, otherwise append one. -/
def objSetdefault (fs : List (String × JValue)) (k : String) (v : JValue) :
    List (String × JValue) :=
  if objHasKey fs k then fs else fs ++ [(k, v)]

/-- The key list of an object value; other values have no keys. -/
def objKeys : JValue → List String
  | .obj fs => fs.map Prod.fst
  | _ => []

/-- Python `key in value` on a JSON value; non-container values raise. -/
def jcontains : JValue → String → Except Unit Bool
  | .obj fs, k => .ok (objHasKey fs k)
  | .arr xs, k => .ok (xs.any fun v => match v with | .str s => s = k | _ => false)
  | .str s, k => .ok (chContains k.toList s.toList)
  | _, _ => .error ()

/-! ### A small executable JSON parser

`jparse` implements json.loads on the fragment exercised by the concrete
inputs in this file: objects, arrays, escape-free strings, integers, true,
false and null, with surrounding whitespace, and rejecting trailing data.
It instantiates the `jsonLoads` parameter of the theorems at witnesses. -/

/-- Skip JSON whitespace. -/
def skipWs : List Char → List Char
  | [] => []
  | c :: rest =>
    if c = ' ' || c = Char.ofNat 10 || c = Char.ofNat 9 || c = Char.ofNat 13 then
      skipWs rest
    else c :: rest

/-- Parse the body of a string literal after the opening quote; no escapes. -/
def jpStrBody : List Char → Option (List Char × List Char)
  | [] => none
  | c :: rest =>
    if c = quoteChar then some ([], rest)
    else if c = backslashChar then none
    else match jpStrBody rest with
      | some (s, r) => some (c :: s, r)
      | none => none

/-- Is this an ASCII digit? -/
def isDigitCh (c : Char) : Bool := 48 ≤ c.toNat && c.toNat ≤ 57

/-- Consume a run of digits, accumulating their value. -/
def jpDigits (acc : Nat) : List Char → (Nat × List Char)
  | [] => (acc, [])
  | c :: rest =>
    if isDigitCh c then jpDigits (acc * 10 + (c.toNat - 48)) rest
    else (acc, c :: rest)

mutual

/-- Parse one JSON value; fuel bounds the nesting recursion. -/
def jpVal : Nat → List Char → Option (JValue × List Char)
  | 0, _ => none
  | fuel + 1, cs0 =>
    match skipWs cs0 with
    | [] => none
    | c :: rest =>
      if c = quoteChar then
        match jpStrBody rest with
        | some (s, r) => some (.str (String.mk s), r)
        | none => none
      else if c = lbrace then
        match skipWs rest with
        | [] => none
        | d :: r2 =>
          if d = rbrace then some (.obj [], r2)
          else jpMembers fuel (d :: r2) []
      else if c = '[' then
        match skipWs rest with
        | [] => none
        | d :: r2 =>
          if d = ']' then some (.arr [], r2)
          else
            match jpVal fuel (d :: r2) with
            | some (v, r3) => jpArrRest fuel r3 [v]
            | none => none
      else if c = '-' then
        match rest with
        | d :: _ =>
          if isDigitCh d then
            let p := jpDigits 0 rest
            some (.num (-(p.1 : Int)), p.2)
          else none
        | [] => none
      else if isDigitCh c then
        let p := jpDigits 0 (c :: rest)
        some (.num (p.1 : Int), p.2)
      else if chStarts "true".toList (c :: rest) then
        some (.bool true, (c :: rest).drop 4)
      else if chStarts "false".toList (c :: rest) then
        some (.bool false, (c :: rest).drop 5)
      else if chStarts "null".toList (c :: rest) then
        some (.null, (c :: rest).drop 4)
      else none

/-- Parse the members of an object after the opening brace. -/
def jpMembers : Nat → List Char → List (String × JValue) →
    Option (JValue × List Char)
  | 0, _, _ => none
  | fuel + 1, cs, acc =>
    match skipWs cs with
    | [] => none
    | c :: rest =>
      if c = quoteChar then
        match jpStrBody rest with
        | some (k, r1) =>
          match skipWs r1 with
          | [] => none
          | d :: r2 =>
            if d = ':' then
              match jpVal fuel r2 with
              | some (v, r3) =>
                match skipWs r3 with
                | [] => none
                | e :: r4 =>
                  if e = ',' then jpMembers fuel r4 (acc ++ [(String.mk k, v)])
                  else if e = rbrace then
                    some (.obj (acc ++ [(String.mk k, v)]), r4)
                  else none
              | none => none
            else none
        | none => none
      else none

/-- Parse the remaining elements of an array after the first element. -/
def jpArrRest : Nat → List Char → List JValue → Option (JValue × List Char)
  | 0, _, _ => none
  | fuel + 1, cs, acc =>
    match skipWs cs with
    | [] => none
    | c :: rest =>
      if c = ',' then
        match jpVal fuel rest with
        | some (v, r2) => jpArrRest fuel r2 (acc ++ [v])
        | none => none
      else if c = ']' then some (.arr acc, rest)
      else none

end

/-- Executable model of json.loads on the JSON fragment used here. -/
def jparse (s : String) : Option JValue :=
  match jpVal (s.length + 1) s.toList with
  | some (v, rest) => if (skipWs rest).isEmpty then some v else none
  | none => none

/-! ### AnalysisAgent -/

/-- The seven required analysis keys, in source order. -/
def requiredKeys : List String :=
  ["strengths", "weaknesses", "opportunities", "market_gaps",
   "pricing_strategies", "growth_opportunities", "recommendations"]

/-- The placeholder value used to repair a missing key. -/
def naArr : JValue := .arr [.str "N/A"]

/-- AnalysisAgent._generate_mock_report: the fixed mock analysis data. -/
def generate_mock_report : JValue := .obj
  [("strengths", .arr [.str "Mock: Strong online presence",
                       .str "Mock: Innovative product lineup"]),
   ("weaknesses", .arr [.str "Mock: Limited market reach",
                        .str "Mock: Price point concerns"]),
   ("opportunities", .arr [.str "Mock: Expand to new markets",
                           .str "Mock: Develop budget offerings"]),
   ("market_gaps", .arr [.str "Mock: Underserved budget segment"]),
   ("pricing_strategies", .arr [.str "Mock: Consider freemium model"]),
   ("growth_opportunities", .arr [.str "Mock: International expansion"]),
   ("recommendations", .arr [.str "Mock: Develop a stronger social media presence"])]

/-- Greedy first-open-brace to last-close-brace span, the DOTALL regex used in
AnalysisAgent._parse_llm_response. -/
def extractBraces (s : List Char) : Option (List Char) :=
  let t := s.dropWhile fun c => !(c = lbrace)
  let r := (t.reverse.dropWhile fun c => !(c = rbrace)).reverse
  if r.isEmpty then none else some r

/-- AnalysisAgent._parse_llm_response: direct parse, then the brace-span
recovery heuristic, then failure. -/
def parse_llm_response (jsonLoads : String → Option JValue)
    (response_text : String) : Option JValue :=
  match jsonLoads response_text with
  | some v => some v
  | none =>
    match extractBraces response_text.toList with
    | some sub => jsonLoads (String.mk sub)
    | none => none

/-- Python truthiness of an optional string (None and the empty string are
falsy). -/
def optStrTruthy : Option String → Bool
  | none => false
  | some s => !(s = "")

/-- The configuration state of an AnalysisAgent: whether self.client is set,
and the stored model_id and api_key. -/
structure AnalysisAgent where
  clientSet : Bool
  model_id : Option String
  api_key : Option String

/-- The guard on line 158 of the source: the agent is configured when the
client is set and model_id and api_key are truthy. -/
def AnalysisAgent.configured (a : AnalysisAgent) : Bool :=
  a.clientSet && optStrTruthy a.model_id && optStrTruthy a.api_key

/-- Outcome of dispatching the prompt to the configured backend: the call can
raise, or produce the optional response text bound to analysis_json_str. -/
inductive BackendOutcome where
  | raises : BackendOutcome
  | returns : Option String → BackendOutcome

/-- Python `all(key in analysis_data for key in ks)` with short-circuiting;
membership tests on non-container values raise. -/
def pyAllKeys (d : JValue) : List String → Except Unit Bool
  | [] => .ok true
  | k :: rest => do
    let b ← jcontains d k
    if b then pyAllKeys d rest else pure false

/-- One analysis_data.setdefault(key, ["N/A"]) step; raises unless the value
is a dict. -/
def setdefaultJ (d : JValue) (k : String) : Except Unit JValue :=
  match d with
  | .obj fs => .ok (.obj (objSetdefault fs k naArr))
  | _ => .error ()

/-- The repair loop over the required keys on an association list. -/
def repairList (fs : List (String × JValue)) : List (String × JValue) :=
  requiredKeys.foldl (fun acc k => objSetdefault acc k naArr) fs

/-- Lines 196-201 of the source: check the seven required keys and, when some
are missing, setdefault each of them; exceptions propagate to the caller
(the enclosing try of generate_analysis_report). -/
def validateAnalysis (d : JValue) : Except Unit JValue := do
  let ok ← pyAllKeys d requiredKeys
  if ok then pure d
  else requiredKeys.foldlM (fun acc k => setdefaultJ acc k) d

/-- Metadata attached to a competitor record by the crawler. -/
structure MetaDict where
  technologies : Option (List String)
  team_size : Option String
  founded : Option String
  deriving Repr, DecidableEq

/-- The empty metadata dict. -/
def emptyMeta : MetaDict := ⟨none, none, none⟩

/-- A competitor record: a discovery candidate optionally enriched with a
summary and metadata.  Absent dict keys are `none`. -/
structure CompetitorRecord where
  name : Option String
  url : Option String
  description : Option String
  summary : Option String
  metadata : Option MetaDict
  deriving Repr, DecidableEq

/-- AnalysisAgent.generate_analysis_report.  The json.loads function and the
backend dispatch outcome are parameters; the try/except of the source turns
every raised exception into the mock report. -/
def generate_analysis_report (a : AnalysisAgent)
    (jsonLoads : String → Option JValue) (backend : BackendOutcome)
    (company_data : List CompetitorRecord) : JValue :=
  if !a.configured then generate_mock_report
  else
    match backend with
    | .raises => generate_mock_report
    | .returns analysis_json_str =>
      match analysis_json_str with
      | none => generate_mock_report
      | some txt =>
        if txt = "" then generate_mock_report
        else
          match parse_llm_response jsonLoads txt with
          | some analysis_data =>
            if analysis_data.truthy then
              match validateAnalysis analysis_data with
              | .ok r => r
              | .error _ => generate_mock_report
            else generate_mock_report
          | none => generate_mock_report

/-! ### ComparisonAgent -/

/-- A pandas DataFrame projected to its column names and string rows. -/
structure DataFrame where
  columns : List String
  rows : List (List String)
  deriving Repr, DecidableEq

/-- The truncation on lines 243-244: the first 100 characters followed by an
ellipsis marker (the marker is appended unconditionally in the source). -/
def truncEllipsis (s : String) : String := String.mk (s.toList.take 100) ++ "..."

/-- The fixed column set of the comparison table. -/
def comparisonColumns : List String :=
  ["Company", "Website", "Description", "Summary", "Technologies",
   "Team Size", "Founded"]

/-- One row of ComparisonAgent.create_comparison_table. -/
def rowOf (company : CompetitorRecord) : List String :=
  let md := company.metadata.getD emptyMeta
  let technologies := String.intercalate ", " (md.technologies.getD ["N/A"])
  [company.name.getD "Unknown",
   company.url.getD "N/A",
   truncEllipsis (company.description.getD "N/A"),
   truncEllipsis (company.summary.getD "N/A"),
   technologies,
   md.team_size.getD "N/A",
   md.founded.getD "N/A"]

/-- ComparisonAgent.create_comparison_table. -/
def create_comparison_table (company_data : List CompetitorRecord) : DataFrame :=
  if company_data.isEmpty then ⟨comparisonColumns, []⟩
  else ⟨comparisonColumns, company_data.map rowOf⟩

/-! ### CompetitorIntelligenceTeam.discover_competitors -/

/-- A candidate returned by the Exa search collaborator. -/
structure Candidate where
  name : Option String
  url : Option String
  description : Option String
  deriving Repr, DecidableEq

/-- The result dict of one crawl_website call. -/
structure CrawlResult where
  title : String
  description : String
  content : String
  metadata : Option MetaDict

/-- A progress-bar update: the displayed fraction and its text label. -/
structure ProgressEvent where
  fraction : ℚ
  label : String
  deriving Repr, DecidableEq

/-- The display name of a candidate, defaulting to Unknown (line 296). -/
def candidateName (c : Candidate) : String := c.name.getD "Unknown"

/-- The progress label emitted while processing candidate i (0-based). -/
def crawlLabel (c : Candidate) (i n : Nat) : String :=
  "Crawling " ++ candidateName c ++ " (" ++ toString (i + 1) ++ "/" ++
    toString n ++ ")..."

/-- Enrichment of one candidate (lines 295-316): crawl and summarize inside
try/except; a raise from either call yields the "Crawling failed" marker, a
missing or empty URL yields "No URL provided", and the loop always appends. -/
def enrichCandidate (crawl : String → Except Unit CrawlResult)
    (summarize : String → Except Unit String) (c : Candidate) :
    CompetitorRecord :=
  match c.url with
  | some u =>
    if u = "" then ⟨c.name, c.url, c.description, some "No URL provided", some emptyMeta⟩
    else
      match crawl u with
      | .ok cd =>
        match summarize cd.content with
        | .ok s =>
          ⟨c.name, c.url, c.description, some s, some (cd.metadata.getD emptyMeta)⟩
        | .error _ =>
          ⟨c.name, c.url, c.description, some "Crawling failed", some emptyMeta⟩
      | .error _ =>
        ⟨c.name, c.url, c.description, some "Crawling failed", some emptyMeta⟩
  | none => ⟨c.name, c.url, c.description, some "No URL provided", some emptyMeta⟩

/-- The per-candidate progress events of the enrichment loop, one per
candidate, emitted in input order with fraction (i+1)/n. -/
def candidateEvents (cands : List Candidate) : List ProgressEvent :=
  (List.range cands.length).map fun i =>
    ⟨((i + 1 : Nat) : ℚ) / (cands.length : ℚ),
     match cands.get? i with
     | some c => crawlLabel c i cands.length
     | none => crawlLabel ⟨none, none, none⟩ i cands.length⟩

/-- All progress-bar updates of discover_competitors once the candidate list
is known: the initial 0.0 render, then the loop, then the terminal 1.0. -/
def discoverEvents (cands : List Candidate) : List ProgressEvent :=
  if cands.isEmpty then
    [⟨0, "Crawling competitor websites..."⟩,
     ⟨1, "No competitors found to crawl."⟩]
  else
    ⟨0, "Crawling competitor websites..."⟩ :: candidateEvents cands ++
      [⟨1, "Competitor crawling complete."⟩]

/-- The URL-scheme validation regex match of line 271
(the anchored pattern https?:// matched at the start of the input). -/
def hasUrlScheme (s : String) : Bool :=
  chStarts "http://".toList s.toList || chStarts "https://".toList s.toList

/-- CompetitorIntelligenceTeam.discover_competitors.  The crawler, the
summarizer and the search collaborator are parameters; a raise from the
initial crawl_website call or from find_similar_companies is NOT caught by
the source and therefore escapes as `.error`.  The result pairs the returned
record list with the emitted progress events. -/
def discover_competitors (crawl : String → Except Unit CrawlResult)
    (summarize : String → Except Unit String)
    (findSimilar : String → Except Unit (List Candidate))
    (input_text : String) (is_url : Bool) :
    Except Unit (List CompetitorRecord × List ProgressEvent) :=
  if is_url && !hasUrlScheme input_text then
    .ok ([], [])
  else
    (if is_url then
       (crawl input_text).map fun cd =>
         if cd.description = "" then cd.title else cd.description
     else .ok input_text).bind fun description =>
      if description = "" then .ok ([], [])
      else
        (findSimilar description).map fun competitors =>
          (if competitors.isEmpty then []
           else competitors.map (enrichCandidate crawl summarize),
           discoverEvents competitors)

/-! ### CompetitorIntelligenceTeam.generate_intelligence_report -/

/-- The assembled intelligence report. -/
structure IntelligenceReport where
  competitors : List CompetitorRecord
  analysis : JValue
  comparison_table : DataFrame

/-- CompetitorIntelligenceTeam.generate_intelligence_report (lines 321-335):
the empty-input early return yields an empty analysis dict and a column-less
empty DataFrame; otherwise the analysis agent and the comparison agent run. -/
def generate_intelligence_report (agent : AnalysisAgent)
    (jsonLoads : String → Option JValue) (backend : BackendOutcome)
    (competitors : List CompetitorRecord) : IntelligenceReport :=
  if competitors.isEmpty then ⟨[], .obj [], ⟨[], []⟩⟩
  else
    let analysis :=
      if !agent.clientSet then generate_mock_report
      else generate_analysis_report agent jsonLoads backend competitors
    ⟨competitors, analysis, create_comparison_table competitors⟩

/-! ### Concrete instances used by witnesses and counterexamples -/

/-- A configured analysis agent. -/
def cfgAgent : AnalysisAgent := ⟨true, some "gpt-4o", some "sk-test"⟩

/-- An unconfigured analysis agent (no client, no key). -/
def unconfAgent : AnalysisAgent := ⟨false, some "gpt-4o", none⟩

/-- A crawler collaborator that always raises. -/
def crawlFail : String → Except Unit CrawlResult := fun _ => .error ()

/-- A summarizer collaborator that always raises. -/
def summarizeFail : String → Except Unit String := fun _ => .error ()

/-- A search collaborator that always raises. -/
def findSimilarFail : String → Except Unit (List Candidate) := fun _ => .error ()

/-- Three concrete candidates, as the Exa mock would return them. -/
def cands3 : List Candidate :=
  [⟨some "CompetitorA", some "https://competitora.com", some "descA"⟩,
   ⟨some "CompetitorB", some "https://competitorb.com", some "descB"⟩,
   ⟨some "CompetitorC", some "https://competitorc.com", some "descC"⟩]

/-- Concrete crawl metadata. -/
def metaW : MetaDict := ⟨some ["React", "AWS"], some "50-200", some "2015"⟩

/-- A crawler that raises exactly on the second candidate of cands3. -/
def crawlW : String → Except Unit CrawlResult := fun u =>
  if u = "https://competitorb.com" then .error ()
  else .ok ⟨"Title", "A company.", "content", some metaW⟩

/-- A summarizer that always succeeds with a fixed summary. -/
def summarizeW : String → Except Unit String := fun _ => .ok "Mock summary"

/-- A search collaborator that returns cands3 for every description. -/
def findSimilarW : String → Except Unit (List Candidate) := fun _ => .ok cands3

/-- Dict lookup on a JSON value (none on non-objects). -/
def jGet (v : JValue) (k : String) : Option JValue :=
  match v with
  | .obj fs => objLookup fs k
  | _ => none

/-- A backend response that parses to an object with an empty required key
and an extra key. -/
def c1resp : String := "\x7b\"strengths\":[],\"extra\":[\"y\"]\x7d"

/-- A backend response that parses to an object missing six required keys. -/
def c5t : String := "\x7b\"strengths\":[\"x\"]\x7d"

/-- The fields json.loads produces for c5t. -/
def c5fs : List (String × JValue) := [("strengths", .arr [.str "x"])]

/-- Prefix noise for the brace-recovery witness. -/
def c6pre : List Char := "noise ".toList

/-- Suffix noise for the brace-recovery witness. -/
def c6post : List Char := " tail".toList

/-- A complete JSON object, as characters, for the brace-recovery witness. -/
def c6J : List Char := "\x7b\"strengths\":[\"x\"]\x7d".toList

/-- The value json.loads produces for c6J. -/
def c6v : JValue := .obj [("strengths", .arr [.str "x"])]

/-- A 250-character description. -/
def d250 : String := String.mk (List.replicate 250 'a')

/-- A competitor record whose description has 250 characters. -/
def rec250 : CompetitorRecord := ⟨some "A", some "https://a.com", some d250, some "s", none⟩

/-! ### Helper lemmas about the JSON-object operations -/

theorem objHasKey_iff (fs : List (String × JValue)) (k : String) :
    objHasKey fs k = true ↔ k ∈ fs.map Prod.fst := by
  simp [objHasKey, List.any_eq_true, List.mem_map]

theorem pyAllKeys_obj (fs : List (String × JValue)) (ks : List String) :
    pyAllKeys (.obj fs) ks = .ok (ks.all fun k => objHasKey fs k) := by
  induction ks with
  | nil => rfl
  | cons k rest ih =>
    cases h : objHasKey fs k with
    | true =>
      simp only [pyAllKeys, jcontains, h, List.all_cons, Bind.bind, Except.bind,
        Bool.true_and, if_pos]
      exact ih
    | false =>
      simp [pyAllKeys, jcontains, h, List.all_cons, Bind.bind, Except.bind,
        pure, Except.pure]

theorem foldlM_setdefault (ks : List String) (fs : List (String × JValue)) :
    List.foldlM (fun acc k => setdefaultJ acc k) (JValue.obj fs) ks =
      .ok (.obj (ks.foldl (fun acc k => objSetdefault acc k naArr) fs)) := by
  induction ks generalizing fs with
  | nil => rfl
  | cons k rest ih =>
    simp only [List.foldlM_cons, setdefaultJ, List.foldl_cons, Except.bind]
    exact ih _

theorem validateAnalysis_obj (fs : List (String × JValue)) :
    validateAnalysis (.obj fs) =
      .ok (if requiredKeys.all (fun k => objHasKey fs k) then .obj fs
           else .obj (repairList fs)) := by
  cases h : requiredKeys.all fun k => objHasKey fs k with
  | true =>
    simp [validateAnalysis, pyAllKeys_obj, h, Bind.bind, Except.bind, pure,
      Except.pure, repairList]
  | false =>
    simp [validateAnalysis, pyAllKeys_obj, h, Bind.bind, Except.bind,
      foldlM_setdefault, repairList]

theorem mem_fst_objSetdefault_self (fs : List (String × JValue)) (k : String)
    (v : JValue) : k ∈ (objSetdefault fs k v).map Prod.fst := by
  unfold objSetdefault
  by_cases h : objHasKey fs k = true
  · rw [if_pos h]; exact (objHasKey_iff fs k).mp h
  · rw [if_neg h]; simp

theorem mem_fst_objSetdefault_mono {fs : List (String × JValue)} {a : String}
    (k : String) (v : JValue) (h : a ∈ fs.map Prod.fst) :
    a ∈ (objSetdefault fs k v).map Prod.fst := by
  unfold objSetdefault
  by_cases hk : objHasKey fs k = true
  · rwa [if_pos hk]
  · rw [if_neg hk]; simp only [List.map_append, List.mem_append]; exact Or.inl h

theorem mem_fst_objSetdefault_elim {fs : List (String × JValue)} {a : String}
    {k : String} {v : JValue} (h : a ∈ (objSetdefault fs k v).map Prod.fst) :
    a ∈ fs.map Prod.fst ∨ a = k := by
  unfold objSetdefault at h
  by_cases hk : objHasKey fs k = true
  · rw [if_pos hk] at h; exact Or.inl h
  · rw [if_neg hk] at h
    simp only [List.map_append, List.mem_append] at h
    rcases h with h | h
    · exact Or.inl h
    · simp at h; exact Or.inr h

theorem mem_fst_foldl_setdefault (ks : List String)
    (fs : List (String × JValue)) (k : String)
    (h : k ∈ ks ∨ k ∈ fs.map Prod.fst) :
    k ∈ (ks.foldl (fun acc k2 => objSetdefault acc k2 naArr) fs).map Prod.fst := by
  induction ks generalizing fs with
  | nil => simpa using h
  | cons k2 rest ih =>
    simp only [List.foldl_cons]
    apply ih
    rcases h with h | h
    · rcases List.mem_cons.mp h with rfl | h
      · exact Or.inr (mem_fst_objSetdefault_self fs k naArr)
      · exact Or.inl h
    · exact Or.inr (mem_fst_objSetdefault_mono k2 naArr h)

theorem objLookup_append_left {fs gs : List (String × JValue)} {k : String}
    {v : JValue} (h : objLookup fs k = some v) :
    objLookup (fs ++ gs) k = some v := by
  induction fs with
  | nil => simp [objLookup] at h
  | cons p rest ih =>
    obtain ⟨k2, w⟩ := p
    simp only [objLookup, List.cons_append] at h ⊢
    by_cases he : k2 = k
    · rwa [if_pos he] at h ⊢
    · rw [if_neg he] at h ⊢; exact ih h

theorem objLookup_of_not_mem_fst {fs : List (String × JValue)} {k : String}
    (h : k ∉ fs.map Prod.fst) : objLookup fs k = none := by
  induction fs with
  | nil => rfl
  | cons p rest ih =>
    obtain ⟨k2, w⟩ := p
    simp only [List.map_cons, List.mem_cons, not_or] at h
    have hne : ¬ (k2 = k) := fun he => h.1 he.symm
    simp only [objLookup, if_neg hne]
    exact ih h.2

theorem objLookup_append_right {fs gs : List (String × JValue)} {k : String}
    (h : k ∉ fs.map Prod.fst) :
    objLookup (fs ++ gs) k = objLookup gs k := by
  induction fs with
  | nil => rfl
  | cons p rest ih =>
    obtain ⟨k2, w⟩ := p
    simp only [List.map_cons, List.mem_cons, not_or] at h
    have hne : ¬ (k2 = k) := fun he => h.1 he.symm
    simp only [objLookup, List.cons_append, if_neg hne]
    exact ih h.2

theorem objLookup_objSetdefault_preserve {fs : List (String × JValue)}
    {a : String} {v : JValue} (k : String) (w : JValue)
    (h : objLookup fs a = some v) :
    objLookup (objSetdefault fs k w) a = some v := by
  unfold objSetdefault
  by_cases hk : objHasKey fs k = true
  · rwa [if_pos hk]
  · rw [if_neg hk]; exact objLookup_append_left h

theorem objLookup_foldl_setdefault_preserve (ks : List String)
    {fs : List (String × JValue)} {a : String} {v : JValue}
    (h : objLookup fs a = some v) :
    objLookup (ks.foldl (fun acc k2 => objSetdefault acc k2 naArr) fs) a =
      some v := by
  induction ks generalizing fs with
  | nil => exact h
  | cons k2 rest ih =>
    simp only [List.foldl_cons]
    exact ih (objLookup_objSetdefault_preserve k2 naArr h)

theorem objLookup_foldl_setdefault_missing (ks : List String)
    {fs : List (String × JValue)} {k : String} (hk : k ∈ ks)
    (hn : k ∉ fs.map Prod.fst) :
    objLookup (ks.foldl (fun acc k2 => objSetdefault acc k2 naArr) fs) k =
      some naArr := by
  induction ks generalizing fs with
  | nil => cases hk
  | cons k2 rest ih =>
    simp only [List.foldl_cons]
    by_cases he : k2 = k
    · subst he
      have hfalse : ¬ objHasKey fs k2 = true := fun hh =>
        hn ((objHasKey_iff fs k2).mp hh)
      have h1 : objLookup (objSetdefault fs k2 naArr) k2 = some naArr := by
        unfold objSetdefault
        rw [if_neg hfalse, objLookup_append_right hn]
        simp [objLookup]
      exact objLookup_foldl_setdefault_preserve rest h1
    · have hk' : k ∈ rest := by
        rcases List.mem_cons.mp hk with h | h
        · exact absurd h.symm he
        · exact h
      apply ih hk'
      intro hmem
      rcases mem_fst_objSetdefault_elim hmem with h | h
      · exact hn h
      · exact he h.symm

/-! ### Helper lemmas for the brace-extraction recovery -/

theorem dropWhile_append_of_forall {p : Char → Bool} (l1 l2 : List Char)
    (h : ∀ c ∈ l1, p c = true) :
    (l1 ++ l2).dropWhile p = l2.dropWhile p := by
  induction l1 with
  | nil => rfl
  | cons c cs ih =>
    rw [List.cons_append, List.dropWhile_cons, if_pos (h c (by simp))]
    exact ih fun c hc => h c (by simp [hc])

theorem dropWhile_cons_of_neg {p : Char → Bool} {c : Char} (l : List Char)
    (h : p c = false) : (c :: l).dropWhile p = c :: l := by
  rw [List.dropWhile_cons, if_neg (by simp [h])]

theorem extractBraces_noise (pre post J : List Char)
    (hpre : ∀ c ∈ pre, c ≠ lbrace) (hpost : ∀ c ∈ post, c ≠ rbrace)
    (hhead : J.head? = some lbrace) (hlast : J.getLast? = some rbrace) :
    extractBraces (pre ++ J ++ post) = some J := by
  obtain ⟨J', rfl⟩ : ∃ J', J = lbrace :: J' := by
    cases J with
    | nil => simp at hhead
    | cons a t =>
      simp only [List.head?_cons, Option.some.injEq] at hhead
      exact ⟨t, by rw [hhead]⟩
  have hstep1 :
      (pre ++ (lbrace :: J') ++ post).dropWhile (fun c => !(c = lbrace)) =
        (lbrace :: J') ++ post := by
    rw [List.append_assoc,
      dropWhile_append_of_forall pre _ (fun c hc => by simp [hpre c hc]),
      List.cons_append, dropWhile_cons_of_neg _ (by simp)]
  have hrev : (lbrace :: J').reverse.head? = some rbrace := by
    rw [List.head?_reverse]; exact hlast
  obtain ⟨K, hK⟩ : ∃ K, (lbrace :: J').reverse = rbrace :: K := by
    cases hr : (lbrace :: J').reverse with
    | nil => rw [hr] at hrev; simp at hrev
    | cons a t =>
      rw [hr] at hrev
      simp only [List.head?_cons, Option.some.injEq] at hrev
      exact ⟨t, by rw [hrev]⟩
  have hstep2 :
      (((lbrace :: J') ++ post).reverse.dropWhile
          (fun c => !(c = rbrace))).reverse = lbrace :: J' := by
    rw [List.reverse_append,
      dropWhile_append_of_forall post.reverse _
        (fun c hc => by simp [hpost c (List.mem_reverse.mp hc)]),
      hK, dropWhile_cons_of_neg _ (by simp), ← hK, List.reverse_reverse]
  simp only [extractBraces]
  rw [hstep1, hstep2]
  simp

/-! ### Helper lemmas about strings -/

theorem length_mk_append (l : List Char) (t : String) :
    (String.mk l ++ t).length = l.length + t.length := by
  have : (String.mk l ++ t) = String.mk (l ++ t.toList) := rfl
  rw [this]
  show (l ++ t.toList).length = _
  rw [List.length_append]
  rfl

/-! ### Claim theorems -/

/-- C8: generate_analysis_report on an unconfigured client (client, model_id
or api_key unset) returns the fixed mock report, deterministically and
independently of the input records, without consulting the backend. -/
theorem c8_unconfigured_constant (a : AnalysisAgent) (h : a.configured = false)
    (p1 p2 : String → Option JValue) (b1 b2 : BackendOutcome)
    (d1 d2 : List CompetitorRecord) :
    generate_analysis_report a p1 b1 d1 = generate_mock_report ∧
    generate_analysis_report a p1 b1 d1 = generate_analysis_report a p2 b2 d2 := by
  have h1 : ∀ (p : String → Option JValue) (b : BackendOutcome)
      (d : List CompetitorRecord),
      generate_analysis_report a p b d = generate_mock_report := by
    intro p b d
    simp [generate_analysis_report, h]
  exact ⟨h1 p1 b1 d1, by rw [h1, h1]⟩

/-- Witness for C8 at a concrete unconfigured agent and two distinct backend
outcomes. -/
theorem c8_unconfigured_constant_witness :
    generate_analysis_report unconfAgent jparse .raises [] = generate_mock_report ∧
    generate_analysis_report unconfAgent jparse .raises [] =
      generate_analysis_report unconfAgent jparse (.returns (some "x")) [] :=
  c8_unconfigured_constant unconfAgent rfl jparse jparse .raises
    (.returns (some "x")) [] []

/-- C7: when the backend call raises, returns an empty response, or returns
text that fails to parse even after brace extraction, generate_analysis_report
returns the full mock report. -/
theorem c7_full_fallback (a : AnalysisAgent) (p : String → Option JValue)
    (b : BackendOutcome) (data : List CompetitorRecord)
    (h : b = .raises ∨ b = .returns none ∨
      ∃ t, b = .returns (some t) ∧ (t = "" ∨ parse_llm_response p t = none)) :
    generate_analysis_report a p b data = generate_mock_report := by
  rcases h with rfl | rfl | ⟨t, rfl, ht⟩
  · simp [generate_analysis_report, ite_self]
  · simp [generate_analysis_report, ite_self]
  · rcases ht with rfl | hp
    · simp [generate_analysis_report, ite_self]
    · simp [generate_analysis_report, hp, ite_self]

/-- Witness for C7 at a raising backend call. -/
theorem c7_full_fallback_witness :
    generate_analysis_report cfgAgent jparse .raises [] = generate_mock_report :=
  c7_full_fallback cfgAgent jparse .raises [] (Or.inl rfl)

/-- C2 as stated is false: on an empty record list the assembled analysis
field is the empty dict, not a placeholder with the seven keys. -/
theorem c2_counterexample :
    (generate_intelligence_report cfgAgent jparse .raises []).analysis =
      JValue.obj [] ∧
    ¬ (∀ k ∈ requiredKeys,
        k ∈ objKeys ((generate_intelligence_report cfgAgent jparse .raises []).analysis)) :=
  ⟨rfl, by decide⟩

/-- C2 (amended): generate_intelligence_report on an empty record list
returns empty competitors, the empty analysis dict and a column-less empty
table, independently of the analysis configuration and backend (so no
backend call and no comparison builder run is observable). -/
theorem c2_empty_records (a : AnalysisAgent) (p : String → Option JValue)
    (b : BackendOutcome) :
    generate_intelligence_report a p b [] = ⟨[], JValue.obj [], ⟨[], []⟩⟩ := rfl

/-- C3 as stated is false: an exception raised by the initial crawl of the
URL input escapes discover_competitors. -/
theorem c3_counterexample :
    discover_competitors crawlFail summarizeFail findSimilarFail
      "https://example.com" true = .error () := rfl

/-- C3 (amended): failures inside the enrichment loop and a raising backend
are absorbed — discover_competitors on a description input returns normally
for every crawler and summarizer behaviour once the search call succeeds, and
generate_analysis_report turns a raising backend into the mock report — but
the initial URL crawl and the search call are not protected. -/
theorem c3_exception_containment (crawl : String → Except Unit CrawlResult)
    (summarize : String → Except Unit String)
    (findSimilar : String → Except Unit (List Candidate))
    (desc : String) (cands : List Candidate) (a : AnalysisAgent)
    (p : String → Option JValue) (data : List CompetitorRecord)
    (hd : ¬ desc = "") (hf : findSimilar desc = .ok cands) :
    (∃ out evs, discover_competitors crawl summarize findSimilar desc false =
      .ok (out, evs)) ∧
    generate_analysis_report a p .raises data = generate_mock_report := by
  constructor
  · refine ⟨if cands.isEmpty then []
      else cands.map (enrichCandidate crawl summarize), discoverEvents cands, ?_⟩
    simp [discover_competitors, hd, hf, Except.bind, Except.map]
  · cases hc : a.configured <;> simp [generate_analysis_report, hc]

/-- Witness for C3 (amended): a crawler and summarizer that always raise
still let discover_competitors return, and a raising backend yields the mock
report. -/
theorem c3_exception_containment_witness :
    (∃ out evs, discover_competitors crawlFail summarizeFail findSimilarW
      "A tech company" false = .ok (out, evs)) ∧
    generate_analysis_report cfgAgent jparse .raises [] = generate_mock_report :=
  c3_exception_containment crawlFail summarizeFail findSimilarW "A tech company"
    cands3 cfgAgent jparse [] (by decide) rfl

/-- C1 as stated is false: a parsed backend object keeps extra keys and keeps
empty parsed sequences, so the returned report can have eight keys with an
empty strengths value. -/
theorem c1_counterexample :
    generate_analysis_report cfgAgent jparse (.returns (some c1resp)) [] =
      JValue.obj [("strengths", .arr []), ("extra", .arr [.str "y"]),
        ("weaknesses", naArr), ("opportunities", naArr), ("market_gaps", naArr),
        ("pricing_strategies", naArr), ("growth_opportunities", naArr),
        ("recommendations", naArr)] ∧
    (objKeys (generate_analysis_report cfgAgent jparse
      (.returns (some c1resp)) [])).length = 8 ∧
    "extra" ∈ objKeys (generate_analysis_report cfgAgent jparse
      (.returns (some c1resp)) []) ∧
    jGet (generate_analysis_report cfgAgent jparse
      (.returns (some c1resp)) []) "strengths" = some (.arr []) :=
  ⟨rfl, rfl, by decide, rfl⟩

/-- C1 (amended): whenever every parsed backend response is a JSON object
(and on every fallback path), the report returned by generate_analysis_report
contains all seven required keys; parsed keys keep their values, which may be
empty sequences, and extra parsed keys are retained. -/
theorem c1_required_keys_present (a : AnalysisAgent)
    (p : String → Option JValue) (b : BackendOutcome)
    (data : List CompetitorRecord)
    (hobj : ∀ t v, b = .returns (some t) → parse_llm_response p t = some v →
      ∃ fs, v = .obj fs)
    (k : String) (hk : k ∈ requiredKeys) :
    k ∈ objKeys (generate_analysis_report a p b data) := by
  have hmock : ∀ k2 ∈ requiredKeys, k2 ∈ objKeys generate_mock_report := by decide
  cases hc : a.configured with
  | false =>
    have heq : generate_analysis_report a p b data = generate_mock_report := by
      simp [generate_analysis_report, hc]
    rw [heq]; exact hmock k hk
  | true =>
    cases b with
    | raises =>
      have heq : generate_analysis_report a p .raises data = generate_mock_report := by
        simp [generate_analysis_report, hc]
      rw [heq]; exact hmock k hk
    | returns o =>
      cases o with
      | none =>
        have heq : generate_analysis_report a p (.returns none) data =
            generate_mock_report := by
          simp [generate_analysis_report, hc]
        rw [heq]; exact hmock k hk
      | some t =>
        by_cases ht : t = ""
        · have heq : generate_analysis_report a p (.returns (some t)) data =
              generate_mock_report := by
            simp [generate_analysis_report, hc, ht]
          rw [heq]; exact hmock k hk
        · cases hp : parse_llm_response p t with
          | none =>
            have heq : generate_analysis_report a p (.returns (some t)) data =
                generate_mock_report := by
              simp [generate_analysis_report, hc, ht, hp]
            rw [heq]; exact hmock k hk
          | some v =>
            obtain ⟨fs, rfl⟩ := hobj t v rfl hp
            cases htr : (JValue.obj fs).truthy with
            | false =>
              have heq : generate_analysis_report a p (.returns (some t)) data =
                  generate_mock_report := by
                simp [generate_analysis_report, hc, ht, hp, htr]
              rw [heq]; exact hmock k hk
            | true =>
              cases hall : requiredKeys.all fun k2 => objHasKey fs k2 with
              | true =>
                have heq : generate_analysis_report a p (.returns (some t)) data =
                    .obj fs := by
                  simp [generate_analysis_report, hc, ht, hp, htr,
                    validateAnalysis_obj, hall]
                rw [heq]
                show k ∈ fs.map Prod.fst
                exact (objHasKey_iff fs k).mp (List.all_eq_true.mp hall k hk)
              | false =>
                have heq : generate_analysis_report a p (.returns (some t)) data =
                    .obj (repairList fs) := by
                  simp [generate_analysis_report, hc, ht, hp, htr,
                    validateAnalysis_obj, hall]
                rw [heq]
                show k ∈ (repairList fs).map Prod.fst
                simp only [repairList]
                exact mem_fst_foldl_setdefault requiredKeys fs k (Or.inl hk)

/-- Witness for C1 (amended) at a concrete parsed-object response and one of
the required keys. -/
theorem c1_required_keys_present_witness :
    "recommendations" ∈ objKeys (generate_analysis_report cfgAgent jparse
      (.returns (some c1resp)) []) := by
  apply c1_required_keys_present cfgAgent jparse (.returns (some c1resp)) []
  · intro t v het hp
    injection het with h1
    injection h1 with h2
    subst h2
    have hcalc : parse_llm_response jparse c1resp =
        some (.obj [("strengths", .arr []), ("extra", .arr [.str "y"])]) := rfl
    rw [hcalc] at hp
    injection hp with h3
    exact ⟨_, h3.symm⟩
  · decide

/-- C5 as stated is false: a backend response parsing to the empty JSON
object (which is missing every required key) is falsy in Python, so the mock
report is substituted instead of the per-key repair. -/
theorem c5_counterexample :
    generate_analysis_report cfgAgent jparse
      (.returns (some "\x7b\x7d")) [] = generate_mock_report ∧
    generate_mock_report ≠ JValue.obj (repairList []) := by
  refine ⟨rfl, ?_⟩
  simp [generate_mock_report, repairList, requiredKeys, objSetdefault,
    objHasKey, naArr]

/-- C5 (amended): if the backend response parses to a NON-EMPTY JSON object
missing some required keys, generate_analysis_report returns that object with
every missing required key set to the single-element placeholder and every
present key keeping its parsed value — per-key repair, not the mock. -/
theorem c5_per_key_repair (a : AnalysisAgent) (p : String → Option JValue)
    (t : String) (fs : List (String × JValue)) (data : List CompetitorRecord)
    (hcfg : a.configured = true) (ht : ¬ t = "")
    (hp : parse_llm_response p t = some (.obj fs)) (hne : fs ≠ [])
    (hmiss : ¬ ∀ k ∈ requiredKeys, k ∈ fs.map Prod.fst) :
    generate_analysis_report a p (.returns (some t)) data =
      .obj (repairList fs) ∧
    (∀ k v, objLookup fs k = some v →
      objLookup (repairList fs) k = some v) ∧
    (∀ k, k ∈ requiredKeys → k ∉ fs.map Prod.fst →
      objLookup (repairList fs) k = some naArr) := by
  refine ⟨?_, ?_, ?_⟩
  · have hall : (requiredKeys.all fun k => objHasKey fs k) = false := by
      rw [Bool.eq_false_iff]
      intro hc
      exact hmiss fun k hk => (objHasKey_iff fs k).mp (List.all_eq_true.mp hc k hk)
    have htr : (JValue.obj fs).truthy = true := by
      simp [JValue.truthy, hne]
    simp [generate_analysis_report, hcfg, ht, hp, htr, validateAnalysis_obj, hall]
  · intro k v h
    simp only [repairList]
    exact objLookup_foldl_setdefault_preserve requiredKeys h
  · intro k hk hn
    simp only [repairList]
    exact objLookup_foldl_setdefault_missing requiredKeys hk hn

/-- Witness for C5 (amended) at the one-key response from the spec. -/
theorem c5_per_key_repair_witness :
    generate_analysis_report cfgAgent jparse (.returns (some c5t)) [] =
      .obj (repairList c5fs) ∧
    (∀ k v, objLookup c5fs k = some v →
      objLookup (repairList c5fs) k = some v) ∧
    (∀ k, k ∈ requiredKeys → k ∉ c5fs.map Prod.fst →
      objLookup (repairList c5fs) k = some naArr) :=
  c5_per_key_repair cfgAgent jparse c5t c5fs [] rfl (by decide) rfl
    (by simp [c5fs]) (by decide)

theorem parse_llm_response_of_extract (p : String → Option JValue) (s : String)
    (v : JValue) (J : List Char)
    (hext : extractBraces s.toList = some J)
    (hclean : p (String.mk J) = some v)
    (hs : p s = none ∨ p s = some v) :
    parse_llm_response p s = some v := by
  rcases hs with h | h
  · have hext2 : extractBraces s.data = some J := hext
    simp [parse_llm_response, h, hext2, hclean]
  · simp [parse_llm_response, h]

theorem generate_eq_of_parse_eq (a : AnalysisAgent) (p : String → Option JValue)
    (s1 s2 : String) (data : List CompetitorRecord)
    (h1 : ¬ s1 = "") (h2 : ¬ s2 = "")
    (hp : parse_llm_response p s1 = parse_llm_response p s2) :
    generate_analysis_report a p (.returns (some s1)) data =
      generate_analysis_report a p (.returns (some s2)) data := by
  cases hc : a.configured with
  | false => simp [generate_analysis_report, hc]
  | true => simp [generate_analysis_report, hc, h1, h2, hp]

/-- C6: for a complete JSON object J surrounded by brace-free noise, the
brace-extraction recovery makes parse_llm_response return exactly the parse
of J, and generate_analysis_report produces identical output for the noisy
response and the clean response.  The hypothesis on the noisy direct parse
states the two behaviours a JSON parser can have on the noisy text: fail, or
(when the noise is pure whitespace) succeed with the same value. -/
theorem c6_noise_invariant (p : String → Option JValue) (v : JValue)
    (pre post J : List Char)
    (hpre : ∀ c ∈ pre, c ≠ lbrace) (hpost : ∀ c ∈ post, c ≠ rbrace)
    (hhead : J.head? = some lbrace) (hlast : J.getLast? = some rbrace)
    (hclean : p (String.mk J) = some v)
    (hnoisy : p (String.mk (pre ++ J ++ post)) = none ∨
      p (String.mk (pre ++ J ++ post)) = some v) :
    parse_llm_response p (String.mk (pre ++ J ++ post)) = some v ∧
    parse_llm_response p (String.mk (pre ++ J ++ post)) =
      parse_llm_response p (String.mk J) ∧
    ∀ (a : AnalysisAgent) (data : List CompetitorRecord),
      generate_analysis_report a p
        (.returns (some (String.mk (pre ++ J ++ post)))) data =
      generate_analysis_report a p (.returns (some (String.mk J))) data := by
  have hext : extractBraces (String.mk (pre ++ J ++ post)).toList = some J :=
    extractBraces_noise pre post J hpre hpost hhead hlast
  have hnz : parse_llm_response p (String.mk (pre ++ J ++ post)) = some v :=
    parse_llm_response_of_extract p (String.mk (pre ++ J ++ post)) v J hext
      hclean hnoisy
  have hcl : parse_llm_response p (String.mk J) = some v := by
    simp [parse_llm_response, hclean]
  have hJne : J ≠ [] := by
    intro he; rw [he] at hhead; simp at hhead
  have hne2 : ¬ (String.mk J = "") := by
    intro he
    exact hJne (congrArg String.toList he)
  have hne1 : ¬ (String.mk (pre ++ J ++ post) = "") := by
    intro he
    have h0 : pre ++ J ++ post = ([] : List Char) := congrArg String.toList he
    rcases List.append_eq_nil.mp h0 with ⟨h1, _⟩
    rcases List.append_eq_nil.mp h1 with ⟨_, h2⟩
    exact hJne h2
  refine ⟨hnz, by rw [hnz, hcl], ?_⟩
  intro a data
  exact generate_eq_of_parse_eq a p _ _ data hne1 hne2 (by rw [hnz, hcl])

/-- Witness for C6 at a concrete noisy response parsed by jparse. -/
theorem c6_noise_invariant_witness :
    parse_llm_response jparse (String.mk (c6pre ++ c6J ++ c6post)) = some c6v ∧
    generate_analysis_report cfgAgent jparse
      (.returns (some (String.mk (c6pre ++ c6J ++ c6post)))) [] =
    generate_analysis_report cfgAgent jparse
      (.returns (some (String.mk c6J))) [] := by
  have h := c6_noise_invariant jparse c6v c6pre c6post c6J
    (by decide) (by decide) (by decide) (by decide) rfl (Or.inl rfl)
  exact ⟨h.1, h.2.2 cfgAgent []⟩

/-- C9 as stated is false: the ellipsis marker is appended unconditionally,
so a three-character description is not emitted unchanged. -/
theorem c9_counterexample :
    (rowOf ⟨some "A", some "https://a.com", some "abc", some "s", none⟩)[2]? =
      some "abc..." ∧
    ("abc..." : String) ≠ "abc" :=
  ⟨rfl, by decide⟩

theorem truncEllipsis_length (s : String) :
    (truncEllipsis s).length = min 100 s.toList.length + 3 := by
  show (String.mk (s.toList.take 100) ++ "...").length = _
  rw [length_mk_append, List.length_take,
    show ("..." : String).length = 3 from rfl]

/-- C9 (amended): for every record, the Description and Summary cells are
always the first 100 characters of the value (the value being the stored
string, or N/A when absent) followed by the three-character ellipsis marker,
so each cell has length min 100 (length of the value) + 3 — 103 for a
250-character description, but length + 3 (marker included) for values of
100 characters or fewer, never the value unchanged. -/
theorem c9_truncation (c : CompetitorRecord) :
    (rowOf c)[2]? =
      some (String.mk ((c.description.getD "N/A").toList.take 100) ++ "...") ∧
    (rowOf c)[3]? =
      some (String.mk ((c.summary.getD "N/A").toList.take 100) ++ "...") ∧
    ((rowOf c)[2]?).map String.length =
      some (min 100 (c.description.getD "N/A").toList.length + 3) ∧
    ((rowOf c)[3]?).map String.length =
      some (min 100 (c.summary.getD "N/A").toList.length + 3) := by
  have h2 : (rowOf c)[2]? = some (truncEllipsis (c.description.getD "N/A")) := by
    simp [rowOf]
  have h3 : (rowOf c)[3]? = some (truncEllipsis (c.summary.getD "N/A")) := by
    simp [rowOf]
  refine ⟨h2, h3, ?_, ?_⟩
  · rw [h2]
    simp [truncEllipsis_length]
  · rw [h3]
    simp [truncEllipsis_length]

/-- Witness for C9 (amended): a 250-character description yields a
Description cell of exactly 103 characters, and the one-character summary of
the same record yields a Summary cell of 4 characters (marker included). -/
theorem c9_truncation_witness :
    ((rowOf rec250)[2]?).map String.length = some 103 ∧
    ((rowOf rec250)[3]?).map String.length = some 4 := by
  have h := c9_truncation rec250
  have hd : (rec250.description.getD "N/A").toList.length = 250 := by
    show (List.replicate 250 'a').length = 250
    rw [List.length_replicate]
  have hs : (rec250.summary.getD "N/A").toList.length = 1 := rfl
  have h2 := h.2.2.1
  have h3 := h.2.2.2
  rw [hd] at h2
  rw [hs] at h3
  have harith2 : min 100 250 + 3 = 103 := by norm_num
  have harith3 : min 100 1 + 3 = 4 := by norm_num
  rw [harith2] at h2
  rw [harith3] at h3
  exact ⟨h2, h3⟩

/-- C4: a crawl failure for one candidate never aborts the enrichment loop
or drops an entry: the output has exactly one record per candidate in input
order, a raising crawl yields the record of that candidate with the
"Crawling failed" summary and empty metadata, and a succeeding crawl and
summarize yield a fully enriched record. -/
theorem c4_per_candidate_isolation (crawl : String → Except Unit CrawlResult)
    (summarize : String → Except Unit String)
    (findSimilar : String → Except Unit (List Candidate))
    (desc : String) (cands : List Candidate)
    (hd : ¬ desc = "") (hf : findSimilar desc = .ok cands)
    (hne : ¬ cands.isEmpty = true) :
    discover_competitors crawl summarize findSimilar desc false =
      .ok (cands.map (enrichCandidate crawl summarize), discoverEvents cands) ∧
    (cands.map (enrichCandidate crawl summarize)).length = cands.length ∧
    (∀ (i : Nat) (c : Candidate) (u : String), cands[i]? = some c →
      c.url = some u → ¬ u = "" → crawl u = .error () →
      (cands.map (enrichCandidate crawl summarize))[i]? =
        some ⟨c.name, c.url, c.description, some "Crawling failed",
          some emptyMeta⟩) ∧
    (∀ (i : Nat) (c : Candidate) (u : String) (cd : CrawlResult) (s : String),
      cands[i]? = some c → c.url = some u → ¬ u = "" →
      crawl u = .ok cd → summarize cd.content = .ok s →
      (cands.map (enrichCandidate crawl summarize))[i]? =
        some ⟨c.name, c.url, c.description, some s,
          some (cd.metadata.getD emptyMeta)⟩) := by
  refine ⟨?_, List.length_map _ _, ?_, ?_⟩
  · simp [discover_competitors, hd, hf, hne, Except.bind, Except.map]
  · intro i c u hc hu hue hcrawl
    rw [List.getElem?_map, hc]
    simp [enrichCandidate, hu, hue, hcrawl]
  · intro i c u cd s hc hu hue hcrawl hsum
    rw [List.getElem?_map, hc]
    simp [enrichCandidate, hu, hue, hcrawl, hsum]

/-- Witness for C4: with a crawler that raises exactly on the second of three
candidates, the output keeps all three entries, marks the second one and
fully enriches the first. -/
theorem c4_per_candidate_isolation_witness :
    (cands3.map (enrichCandidate crawlW summarizeW))[1]? =
      some ⟨some "CompetitorB", some "https://competitorb.com", some "descB",
        some "Crawling failed", some emptyMeta⟩ ∧
    (cands3.map (enrichCandidate crawlW summarizeW))[0]? =
      some ⟨some "CompetitorA", some "https://competitora.com", some "descA",
        some "Mock summary", some metaW⟩ ∧
    (cands3.map (enrichCandidate crawlW summarizeW)).length = 3 := by
  have h := c4_per_candidate_isolation crawlW summarizeW findSimilarW "desc"
    cands3 (by decide) rfl (by decide)
  refine ⟨?_, ?_, h.2.1⟩
  · exact h.2.2.1 1 ⟨some "CompetitorB", some "https://competitorb.com",
      some "descB"⟩ "https://competitorb.com" rfl rfl (by decide) rfl
  · exact h.2.2.2 0 ⟨some "CompetitorA", some "https://competitora.com",
      some "descA"⟩ "https://competitora.com"
      ⟨"Title", "A company.", "content", some metaW⟩ "Mock summary"
      rfl rfl (by decide) rfl rfl

theorem candidateEvents_fraction_bounds (cands : List Candidate) :
    ∀ e ∈ candidateEvents cands, 0 ≤ e.fraction ∧ e.fraction ≤ 1 := by
  intro e he
  simp only [candidateEvents, List.mem_map, List.mem_range] at he
  obtain ⟨i, hi, rfl⟩ := he
  constructor
  · positivity
  · apply div_le_one_of_le₀
    · push_cast
      exact_mod_cast Nat.succ_le_of_lt hi
    · positivity

theorem candidateEvents_chain (cands : List Candidate) :
    List.Chain' (fun e1 e2 => e1.fraction ≤ e2.fraction)
      (candidateEvents cands) := by
  rw [candidateEvents, List.chain'_map]
  cases hn : cands.length with
  | zero => simp
  | succ m =>
    rw [List.chain'_range_succ]
    intro i hi
    show ((i + 1 : Nat) : ℚ) / ((m + 1 : Nat) : ℚ) ≤
      ((i + 1 + 1 : Nat) : ℚ) / ((m + 1 : Nat) : ℚ)
    have hpos : (0 : ℚ) < ((m + 1 : Nat) : ℚ) := by positivity
    rw [div_le_div_iff_of_pos_right hpos]
    push_cast
    linarith

/-- C10: after the candidate list is obtained, discover_competitors emits one
progress signal per candidate in input order with fraction (i+1)/n and a
label naming that candidate; the whole emitted fraction sequence is monotone
non-decreasing and ends at 1.0, and an empty candidate list yields exactly
the initial render plus a single terminal 1.0 signal together with an empty
result. -/
theorem c10_progress (crawl : String → Except Unit CrawlResult)
    (summarize : String → Except Unit String)
    (findSimilar : String → Except Unit (List Candidate))
    (desc : String) (cands : List Candidate)
    (hd : ¬ desc = "") (hf : findSimilar desc = .ok cands) :
    discover_competitors crawl summarize findSimilar desc false =
      .ok (if cands.isEmpty then []
        else cands.map (enrichCandidate crawl summarize), discoverEvents cands) ∧
    List.Chain' (fun e1 e2 => e1.fraction ≤ e2.fraction) (discoverEvents cands) ∧
    (discoverEvents cands).getLast?.map ProgressEvent.fraction = some 1 ∧
    (cands.isEmpty = true → discoverEvents cands =
      [⟨0, "Crawling competitor websites..."⟩,
       ⟨1, "No competitors found to crawl."⟩]) ∧
    (∀ (i : Nat) (c : Candidate), cands[i]? = some c →
      (discoverEvents cands)[i + 1]? =
      some ⟨((i + 1 : Nat) : ℚ) / (cands.length : ℚ),
        crawlLabel c i cands.length⟩) := by
  refine ⟨?_, ?_, ?_, ?_, ?_⟩
  · simp [discover_competitors, hd, hf, Except.bind, Except.map]
  · by_cases he : cands.isEmpty
    · simp only [discoverEvents, if_pos he]
      rw [List.chain'_cons]
      exact ⟨by norm_num, by simp⟩
    · simp only [discoverEvents, if_neg he]
      rw [show (⟨0, "Crawling competitor websites..."⟩ : ProgressEvent) ::
          candidateEvents cands ++ [⟨1, "Competitor crawling complete."⟩] =
          (⟨0, "Crawling competitor websites..."⟩ ::
            candidateEvents cands) ++ [⟨1, "Competitor crawling complete."⟩]
          from rfl]
      rw [List.chain'_append]
      refine ⟨?_, by simp, ?_⟩
      · rw [List.chain'_cons']
        refine ⟨?_, candidateEvents_chain cands⟩
        intro y hy
        have hmem : y ∈ candidateEvents cands := List.mem_of_mem_head? hy
        exact (candidateEvents_fraction_bounds cands y hmem).1
      · intro x hx y hy
        simp only [List.head?_cons, Option.mem_def, Option.some.injEq] at hy
        subst hy
        show x.fraction ≤ 1
        have hmem := List.mem_of_mem_getLast? hx
        rcases List.mem_cons.mp hmem with rfl | hmem2
        · norm_num
        · exact (candidateEvents_fraction_bounds cands x hmem2).2
  · by_cases he : cands.isEmpty
    · simp [discoverEvents, he]
    · simp only [discoverEvents, if_neg he]
      rw [show (⟨0, "Crawling competitor websites..."⟩ : ProgressEvent) ::
          candidateEvents cands ++ [⟨1, "Competitor crawling complete."⟩] =
          (⟨0, "Crawling competitor websites..."⟩ ::
            candidateEvents cands) ++ [⟨1, "Competitor crawling complete."⟩]
          from rfl]
      rw [List.getLast?_concat]
      rfl
  · intro he; simp [discoverEvents, he]
  · intro i c hc
    have hi : i < cands.length := by
      by_contra hlt
      push_neg at hlt
      rw [List.getElem?_eq_none hlt] at hc
      cases hc
    have hne : ¬ cands.isEmpty = true := by
      intro he
      rw [List.isEmpty_iff.mp he] at hi
      simp at hi
    have hlen : i < (candidateEvents cands).length := by
      simpa [candidateEvents] using hi
    simp only [discoverEvents, if_neg hne]
    have hstep : ((⟨0, "Crawling competitor websites..."⟩ : ProgressEvent) ::
        candidateEvents cands ++
        [(⟨1, "Competitor crawling complete."⟩ : ProgressEvent)])[i + 1]? =
        (candidateEvents cands ++
          [(⟨1, "Competitor crawling complete."⟩ : ProgressEvent)])[i]? := by
      simp
    rw [hstep, List.getElem?_append_left hlen]
    simp [candidateEvents, List.getElem?_range, hi, hc]

/-- Witness for C10 at a concrete three-candidate discovery run. -/
theorem c10_progress_witness :
    List.Chain' (fun e1 e2 => e1.fraction ≤ e2.fraction)
      (discoverEvents cands3) ∧
    (discoverEvents cands3).getLast?.map ProgressEvent.fraction = some 1 := by
  have h := c10_progress crawlW summarizeW findSimilarW "desc" cands3
    (by decide) rfl
  exact ⟨h.2.1, h.2.2.1⟩

end CompetitorTeam
